import Mathlib

/-!
Verification of the simple calculator: a tokenizer over a character list with
a numeric cursor, a recursive-descent parser over the token list, and a
tree-walking evaluator against a variable environment.  Every definition is a
shallow embedding of the corresponding function in src/main.rs; fatal
conditions (aborts) are modelled as Option none or as Except errors.
-/

namespace SimpleCalc

/-- Lexical tokens, mirroring enum Token in the source.  The i32 payload of
Int is modelled as an unbounded integer; the tokenizer itself enforces the
i32 range when scanning a digit run. -/
inductive Token where
  | int (value : Int)
  | openParen
  | closedParen
  | operator (op : String)
  | identifier (name : String)
  | inputEnd
deriving DecidableEq, Repr

/-- The whitespace characters skipped by the scanner: space, carriage return,
newline, tab. -/
def isCalcWhitespace (c : Char) : Bool :=
  c = ' ' || c = '\r' || c = '\n' || c = '\t'

/-- The match arm that starts an identifier in next_token: an ASCII letter,
the two ranges a-z and A-Z of the source. -/
def isAsciiLetter (c : Char) : Bool :=
  ('a' ≤ c && c ≤ 'z') || ('A' ≤ c && c ≤ 'Z')

/-- The continuation test of the identifier loop, char::is_alphabetic of the
source: the Unicode Alphabetic property.  The property is embedded
completely for every codepoint below 0x100, that is, the ASCII and Latin-1
blocks: the ASCII letters, and the Latin-1 letters U+00AA, U+00B5, U+00BA,
U+00C0 to U+00D6, U+00D8 to U+00F6 and U+00F8 to U+00FF.  Codepoints at
0x100 and above are conservatively not alphabetic in this model, so every
theorem quantifying over scanner inputs restricts them to codepoints below
0x100, on which the model and the source agree exactly. -/
def rustIsAlphabetic (c : Char) : Bool :=
  isAsciiLetter c || c.toNat = 0xAA || c.toNat = 0xB5 || c.toNat = 0xBA ||
  (0xC0 ≤ c.toNat && c.toNat ≤ 0xD6) || (0xD8 ≤ c.toNat && c.toNat ≤ 0xF6) ||
  (0xF8 ≤ c.toNat && c.toNat ≤ 0xFF)

/-- The ASCII decimal digit class, matching both the start range 0-9 and the
continuation test of the digit branch in the source. -/
def isDigitChar (c : Char) : Bool :=
  '0' ≤ c && c ≤ '9'

/-- The while loops in the identifier and number branches of next_token:
starting at cursor i, consume characters while p holds, returning the
consumed run and the final cursor.  The fuel argument makes the recursion
structural; callers pass enough fuel to cover the remaining input. -/
def scan_while : Nat → (Char → Bool) → List Char → Nat → List Char × Nat
  | 0, _, _, i => ([], i)
  | fuel + 1, p, input, i =>
    match input[i]? with
    | some c =>
      if p c then
        let r := scan_while fuel p input (i + 1)
        (c :: r.1, r.2)
      else ([], i)
    | none => ([], i)

/-- Base-10 value of a digit run, as computed by the integer parse in the
number branch. -/
def digitsToNat (cs : List Char) : Nat :=
  List.foldl (fun acc c => acc * 10 + (c.toNat - 48)) 0 cs

/-- One step of the scanner: dispatch on the character at the cursor.  Each
branch mirrors one arm of the match in next_token; the whitespace branch
recurses at the next position, which the fuel argument makes structural.
Result none models an abort: an invalid character, or a digit run outside
the i32 range. -/
def next_token_aux : Nat → List Char → Nat → Option (Token × Nat)
  | 0, _, _ => none
  | fuel + 1, input, i =>
    match input[i]? with
    | none => some (Token.inputEnd, i)
    | some c =>
      if c = '(' then some (Token.openParen, i + 1)
      else if c = ')' then some (Token.closedParen, i + 1)
      else if c = '+' then some (Token.operator "+", i + 1)
      else if c = '-' then some (Token.operator "-", i + 1)
      else if c = '*' then some (Token.operator "*", i + 1)
      else if c = '/' then some (Token.operator "/", i + 1)
      else if c = '=' then some (Token.operator "=", i + 1)
      else if isAsciiLetter c then
        let r := scan_while (input.length - i + 1) rustIsAlphabetic input i
        some (Token.identifier (String.mk r.1), r.2)
      else if isDigitChar c then
        let r := scan_while (input.length - i + 1) isDigitChar input i
        let n := digitsToNat r.1
        if n ≤ 2147483647 then some (Token.int (Int.ofNat n), r.2) else none
      else if isCalcWhitespace c then next_token_aux fuel input (i + 1)
      else none

/-- next_token of the scanner: returns the token at the cursor together with
the advanced cursor.  The fuel covers the whole remaining input plus one, so
the whitespace recursion never exhausts it. -/
def next_token (input : List Char) (i : Nat) : Option (Token × Nat) :=
  next_token_aux (input.length - i + 1) input i

/-- The collection loop of tokenize_all: call next_token, push the token,
stop after pushing InputEnd.  Fuel bounds the number of loop iterations. -/
def tokenize_all_aux : Nat → List Char → Nat → Option (List Token)
  | 0, _, _ => none
  | fuel + 1, input, i =>
    match next_token input i with
    | none => none
    | some (t, j) =>
      if t = Token.inputEnd then some [t]
      else
        match tokenize_all_aux fuel input j with
        | none => none
        | some ts => some (t :: ts)

/-- tokenize_all: drive the scanner from cursor 0 until InputEnd, inclusive. -/
def tokenize_all (input : String) : Option (List Token) :=
  tokenize_all_aux (input.toList.length + 1) input.toList 0

example : tokenize_all "(1 + 2) * (3 - 6)" =
    some [Token.openParen, Token.int 1, Token.operator "+", Token.int 2,
          Token.closedParen, Token.operator "*", Token.openParen, Token.int 3,
          Token.operator "-", Token.int 6, Token.closedParen, Token.inputEnd] := by
  decide

/-- Expression tree nodes, mirroring enum AstNode in the source.  Children
are plain subterms: the reference counting of the source is only sharing of
immutable values. -/
inductive AstNode where
  | add (left right : AstNode)
  | subtract (left right : AstNode)
  | multiply (left right : AstNode)
  | divide (left right : AstNode)
  | assign (left right : AstNode)
  | identifier (name : String)
  | intLiteral (value : Int)
deriving DecidableEq, Repr

/-- The fatal conditions of the parser.  outOfBounds models an index panic on
the token vector, expectedClosedParen and expectedFactor the two explicit
parser aborts, and fuelOut marks exhaustion of the structural fuel (never
reached with the fuel parse supplies). -/
inductive ParseErr where
  | outOfBounds
  | expectedClosedParen
  | expectedFactor
  | fuelOut
deriving DecidableEq, Repr

/-- The indexing tokens[current_index] of the source: an index past the end
of the vector is a fatal condition. -/
def tokAt (tokens : List Token) (i : Nat) : Except ParseErr Token :=
  match tokens[i]? with
  | some t => Except.ok t
  | none => Except.error ParseErr.outOfBounds

mutual

/-- parse_expression: parse an additive expression, then enter the
assignment loop. -/
def parse_expression : Nat → List Token → Nat → Except ParseErr (AstNode × Nat)
  | 0, _, _ => Except.error ParseErr.fuelOut
  | fuel + 1, tokens, i =>
    match parse_additive fuel tokens i with
    | Except.error e => Except.error e
    | Except.ok (node, j) => parse_expression_loop fuel tokens j node

/-- The loop in parse_expression: while the current token is the operator
"=", consume it, parse a full expression as the right side, and wrap the
node built so far in an Assign. -/
def parse_expression_loop : Nat → List Token → Nat → AstNode → Except ParseErr (AstNode × Nat)
  | 0, _, _, _ => Except.error ParseErr.fuelOut
  | fuel + 1, tokens, i, node =>
    match tokAt tokens i with
    | Except.error e => Except.error e
    | Except.ok t =>
      if t = Token.operator "=" then
        match parse_expression fuel tokens (i + 1) with
        | Except.error e => Except.error e
        | Except.ok (rhs, j) =>
          parse_expression_loop fuel tokens j (AstNode.assign node rhs)
      else Except.ok (node, i)
termination_by structural fuel _ _ _ => fuel

/-- parse_additive: parse a term, then enter the additive loop. -/
def parse_additive : Nat → List Token → Nat → Except ParseErr (AstNode × Nat)
  | 0, _, _ => Except.error ParseErr.fuelOut
  | fuel + 1, tokens, i =>
    match parse_term fuel tokens i with
    | Except.error e => Except.error e
    | Except.ok (node, j) => parse_additive_loop fuel tokens j node
termination_by structural fuel _ _ => fuel

/-- The loop in parse_additive: while the current token is "+" or "-",
consume it and fold a further term into an Add or Subtract node. -/
def parse_additive_loop : Nat → List Token → Nat → AstNode → Except ParseErr (AstNode × Nat)
  | 0, _, _, _ => Except.error ParseErr.fuelOut
  | fuel + 1, tokens, i, node =>
    match tokAt tokens i with
    | Except.error e => Except.error e
    | Except.ok t =>
      if t = Token.operator "+" then
        match parse_term fuel tokens (i + 1) with
        | Except.error e => Except.error e
        | Except.ok (rhs, j) =>
          parse_additive_loop fuel tokens j (AstNode.add node rhs)
      else if t = Token.operator "-" then
        match parse_term fuel tokens (i + 1) with
        | Except.error e => Except.error e
        | Except.ok (rhs, j) =>
          parse_additive_loop fuel tokens j (AstNode.subtract node rhs)
      else Except.ok (node, i)
termination_by structural fuel _ _ _ => fuel

/-- parse_term: parse a factor, then enter the multiplicative loop. -/
def parse_term : Nat → List Token → Nat → Except ParseErr (AstNode × Nat)
  | 0, _, _ => Except.error ParseErr.fuelOut
  | fuel + 1, tokens, i =>
    match parse_factor fuel tokens i with
    | Except.error e => Except.error e
    | Except.ok (node, j) => parse_term_loop fuel tokens j node
termination_by structural fuel _ _ => fuel

/-- The loop in parse_term: while the current token is "*" or "/", consume
it and fold a further factor into a Multiply or Divide node. -/
def parse_term_loop : Nat → List Token → Nat → AstNode → Except ParseErr (AstNode × Nat)
  | 0, _, _, _ => Except.error ParseErr.fuelOut
  | fuel + 1, tokens, i, node =>
    match tokAt tokens i with
    | Except.error e => Except.error e
    | Except.ok t =>
      if t = Token.operator "*" then
        match parse_factor fuel tokens (i + 1) with
        | Except.error e => Except.error e
        | Except.ok (rhs, j) =>
          parse_term_loop fuel tokens j (AstNode.multiply node rhs)
      else if t = Token.operator "/" then
        match parse_factor fuel tokens (i + 1) with
        | Except.error e => Except.error e
        | Except.ok (rhs, j) =>
          parse_term_loop fuel tokens j (AstNode.divide node rhs)
      else Except.ok (node, i)
termination_by structural fuel _ _ _ => fuel

/-- parse_factor: an integer literal, a parenthesized expression closed by a
matching ClosedParen, or an identifier; any other token is fatal. -/
def parse_factor : Nat → List Token → Nat → Except ParseErr (AstNode × Nat)
  | 0, _, _ => Except.error ParseErr.fuelOut
  | fuel + 1, tokens, i =>
    match tokAt tokens i with
    | Except.error e => Except.error e
    | Except.ok (Token.int v) => Except.ok (AstNode.intLiteral v, i + 1)
    | Except.ok Token.openParen =>
      match parse_expression fuel tokens (i + 1) with
      | Except.error e => Except.error e
      | Except.ok (node, j) =>
        match tokAt tokens j with
        | Except.error e => Except.error e
        | Except.ok t2 =>
          if t2 = Token.closedParen then Except.ok (node, j + 1)
          else Except.error ParseErr.expectedClosedParen
    | Except.ok (Token.identifier id) => Except.ok (AstNode.identifier id, i + 1)
    | Except.ok _ => Except.error ParseErr.expectedFactor
termination_by structural fuel _ _ => fuel

end

/-- Fuel that always suffices for the recursive descent over the given token
list: each unit of descent either consumes a token or moves one level down
the four-deep grammar. -/
def parseFuel (tokens : List Token) : Nat :=
  8 * (tokens.length + 1)

/-- parse: run parse_expression from cursor 0 and return the tree, dropping
the final cursor without checking that it reached the end of the tokens. -/
def parse (tokens : List Token) : Except ParseErr AstNode :=
  match parse_expression (parseFuel tokens) tokens 0 with
  | Except.error e => Except.error e
  | Except.ok (node, _) => Except.ok node

example : parse [Token.openParen, Token.int 1, Token.operator "+", Token.int 2,
    Token.closedParen, Token.operator "*", Token.openParen, Token.int 3,
    Token.operator "-", Token.int 6, Token.closedParen, Token.inputEnd] =
    Except.ok (AstNode.multiply
      (AstNode.add (AstNode.intLiteral 1) (AstNode.intLiteral 2))
      (AstNode.subtract (AstNode.intLiteral 3) (AstNode.intLiteral 6))) := by
  rfl

/-- The variable environment: a finite map from identifier name to the last
assigned value, modelling the HashMap of the source as an association list
with unique keys. -/
abbrev Env : Type := List (String × Int)

/-- HashMap get: the value bound to the key, if present. -/
def envLookup (env : Env) (key : String) : Option Int :=
  match env with
  | [] => none
  | (k, v) :: rest => if k = key then some v else envLookup rest key

/-- HashMap insert: bind the key to the value, overwriting any prior
binding. -/
def envInsert (env : Env) (key : String) (value : Int) : Env :=
  (key, value) :: List.filter (fun p => p.1 ≠ key) env

/-- The fatal conditions of the evaluator: division by an evaluated-to-zero
divisor, the one overflowing division (the minimum i32 value divided by
minus one, an abort in every build mode), an Assign whose left child is not
an Identifier, and a lookup of a name absent from the environment. -/
inductive EvalErr where
  | divisionByZero
  | overflow
  | invalidAssignmentTarget
  | unknownIdentifier
deriving DecidableEq, Repr

/-- Reduction of an integer into the i32 range by two's complement
wrapping, the result of the 32-bit machine addition, subtraction and
multiplication of the source in optimized builds. -/
def wrap32 (n : Int) : Int :=
  (n + 2147483648) % 4294967296 - 2147483648

/-- wrap32 is the identity exactly on the i32 range, where machine and
mathematical arithmetic coincide in every build mode. -/
theorem wrap32_eq_self {n : Int} (h1 : -2147483648 ≤ n)
    (h2 : n ≤ 2147483647) : wrap32 n = n := by
  unfold wrap32
  omega

/-- evaluate_expression: structural recursion on the tree, threading the
mutable environment of the source as an explicit value.  Binary operators
evaluate the left child before the right one and combine in 32-bit machine
arithmetic: Add, Subtract and Multiply wrap into the i32 range with wrap32,
the semantics of optimized builds (debug builds abort at an overflowing
result instead; on inputs whose result is representable the two modes and
the mathematical value coincide, and the confirming theorems below restrict
to such inputs); Divide is the truncating division Int.tdiv and aborts on a
zero divisor as well as on its one overflowing case, the minimum i32 value
divided by minus one, in every build mode.  Assign requires an Identifier
target, writes the evaluated value into the environment, and returns it;
Identifier reads the environment, aborting if the name is absent. -/
def evaluate_expression : AstNode → Env → Except EvalErr (Int × Env)
  | AstNode.add l r, env =>
    match evaluate_expression l env with
    | Except.error e => Except.error e
    | Except.ok (vl, env1) =>
      match evaluate_expression r env1 with
      | Except.error e => Except.error e
      | Except.ok (vr, env2) => Except.ok (wrap32 (vl + vr), env2)
  | AstNode.subtract l r, env =>
    match evaluate_expression l env with
    | Except.error e => Except.error e
    | Except.ok (vl, env1) =>
      match evaluate_expression r env1 with
      | Except.error e => Except.error e
      | Except.ok (vr, env2) => Except.ok (wrap32 (vl - vr), env2)
  | AstNode.multiply l r, env =>
    match evaluate_expression l env with
    | Except.error e => Except.error e
    | Except.ok (vl, env1) =>
      match evaluate_expression r env1 with
      | Except.error e => Except.error e
      | Except.ok (vr, env2) => Except.ok (wrap32 (vl * vr), env2)
  | AstNode.divide l r, env =>
    match evaluate_expression l env with
    | Except.error e => Except.error e
    | Except.ok (vl, env1) =>
      match evaluate_expression r env1 with
      | Except.error e => Except.error e
      | Except.ok (vr, env2) =>
        if vr = 0 then Except.error EvalErr.divisionByZero
        else if vl = -2147483648 ∧ vr = -1 then Except.error EvalErr.overflow
        else Except.ok (Int.tdiv vl vr, env2)
  | AstNode.intLiteral v, env => Except.ok (v, env)
  | AstNode.assign l r, env =>
    match l with
    | AstNode.identifier id =>
      match evaluate_expression r env with
      | Except.error e => Except.error e
      | Except.ok (v, env1) => Except.ok (v, envInsert env1 id v)
    | _ => Except.error EvalErr.invalidAssignmentTarget
  | AstNode.identifier id, env =>
    match envLookup env id with
    | some v => Except.ok (v, env)
    | none => Except.error EvalErr.unknownIdentifier

/-- evaluate: the stateless entry point, evaluating against a fresh empty
environment and discarding it. -/
def evaluate (node : AstNode) : Except EvalErr Int :=
  match evaluate_expression node [] with
  | Except.error e => Except.error e
  | Except.ok (v, _) => Except.ok v

/-- interpret: the stateless pipeline tokenize, parse, evaluate; any fatal
condition in any stage aborts the whole pipeline, modelled by none. -/
def interpret (input : String) : Option Int :=
  match tokenize_all input with
  | none => none
  | some tokens =>
    match parse tokens with
    | Except.error _ => none
    | Except.ok ast =>
      match evaluate ast with
      | Except.error _ => none
      | Except.ok v => some v

/-- interpret_with_environment: the stateful pipeline against a caller
supplied environment, returning the value and the updated environment. -/
def interpret_with_environment (input : String) (environment : Env) :
    Option (Int × Env) :=
  match tokenize_all input with
  | none => none
  | some tokens =>
    match parse tokens with
    | Except.error _ => none
    | Except.ok ast =>
      match evaluate_expression ast environment with
      | Except.error _ => none
      | Except.ok (v, env1) => some (v, env1)

/-- The loop of interpret_expressions: the running result starts at 0 and is
overwritten by each input in order; the environment is shared across the
whole sequence. -/
def interpret_expressions_aux : List String → Int → Env → Option Int
  | [], result, _ => some result
  | input :: rest, _, env =>
    match interpret_with_environment input env with
    | none => none
    | some (v, env1) => interpret_expressions_aux rest v env1

/-- interpret_expressions: run the pipeline over each input in order against
one shared environment, starting from an empty environment and result 0,
returning the result of the last input. -/
def interpret_expressions (inputs : List String) : Option Int :=
  interpret_expressions_aux inputs 0 []

example : interpret "(1 + 2) * (3 - 6)" = some (-9) := by rfl

example : interpret "(1 + 3) * (4 * 2)" = some 32 := by rfl

example : interpret_expressions ["x = 1", "y = 2", "x + y"] = some 3 := by rfl

/-- Claim C1 as amended: for i32 literals a and b, evaluating Add returns
a + b whenever a + b is representable in i32, and the analogous equations
hold for Subtract and Multiply on representable results; Divide with a
nonzero right literal returns the truncated quotient Int.tdiv a b except
at its one overflowing case, the minimum value divided by minus one; a
Divide whose right literal is zero aborts with the DivisionByZero fatal
condition.  The unamended claim, quantified over all integers with no
representability bound, fails at overflow: see the counterexample. -/
theorem claim_C1_literal_arithmetic (a b : Int)
    (_ha1 : -2147483648 ≤ a) (_ha2 : a ≤ 2147483647)
    (_hb1 : -2147483648 ≤ b) (_hb2 : b ≤ 2147483647) :
    (-2147483648 ≤ a + b → a + b ≤ 2147483647 →
      evaluate (AstNode.add (AstNode.intLiteral a) (AstNode.intLiteral b)) =
        Except.ok (a + b)) ∧
    (-2147483648 ≤ a - b → a - b ≤ 2147483647 →
      evaluate (AstNode.subtract (AstNode.intLiteral a) (AstNode.intLiteral b)) =
        Except.ok (a - b)) ∧
    (-2147483648 ≤ a * b → a * b ≤ 2147483647 →
      evaluate (AstNode.multiply (AstNode.intLiteral a) (AstNode.intLiteral b)) =
        Except.ok (a * b)) ∧
    (b ≠ 0 → ¬(a = -2147483648 ∧ b = -1) →
      evaluate (AstNode.divide (AstNode.intLiteral a) (AstNode.intLiteral b)) =
        Except.ok (Int.tdiv a b)) ∧
    evaluate (AstNode.divide (AstNode.intLiteral a) (AstNode.intLiteral 0)) =
      Except.error EvalErr.divisionByZero := by
  refine ⟨?_, ?_, ?_, ?_, ?_⟩
  · intro h1 h2
    simp [evaluate, evaluate_expression, wrap32_eq_self h1 h2]
  · intro h1 h2
    simp [evaluate, evaluate_expression, wrap32_eq_self h1 h2]
  · intro h1 h2
    simp [evaluate, evaluate_expression, wrap32_eq_self h1 h2]
  · intro hb hmin
    simp [evaluate, evaluate_expression, hb, hmin]
  · simp [evaluate, evaluate_expression]

/-- Instance of claim C1 at a = 7, b = 2, discharging the range, the
representability, the nonzero divisor and the overflow exclusion
hypotheses. -/
theorem claim_C1_literal_arithmetic_witness :
    evaluate (AstNode.add (AstNode.intLiteral 7) (AstNode.intLiteral 2)) =
      Except.ok (7 + 2) ∧
    evaluate (AstNode.divide (AstNode.intLiteral 7) (AstNode.intLiteral 2)) =
      Except.ok (Int.tdiv 7 2) :=
  ⟨(claim_C1_literal_arithmetic 7 2 (by decide) (by decide) (by decide)
      (by decide)).1 (by decide) (by decide),
   (claim_C1_literal_arithmetic 7 2 (by decide) (by decide) (by decide)
      (by decide)).2.2.2.1 (by decide) (by decide)⟩

/-- Counterexample to claim C1 as stated: the overflowing division of the
minimum i32 value by minus one aborts in every build mode although the
divisor is nonzero, and Add of the maximum value and one does not return
their mathematical sum 2147483648, which is not representable (the program
wraps in optimized builds and aborts in debug builds). -/
theorem claim_C1_literal_arithmetic_counterexample :
    evaluate (AstNode.divide (AstNode.intLiteral (-2147483648))
        (AstNode.intLiteral (-1))) = Except.error EvalErr.overflow ∧
    evaluate (AstNode.add (AstNode.intLiteral 2147483647)
        (AstNode.intLiteral 1)) ≠ Except.ok (2147483647 + 1) := by
  refine ⟨rfl, ?_⟩
  intro h
  exact absurd (Except.ok.inj h) (by decide)

/-- Claim C2 as amended: in a token sequence of the textual shape a + b
times c, the multiplicative operator binds tighter: the parse tree is Add
of a with the Multiply of b and c for all integer payloads, never the
Multiply of the Add, and evaluating it returns a + b times c whenever the
product and the sum are representable in i32; the concrete text 2 + 3 * 4
interprets to 14, not 20.  Without the representability bound the
evaluation equation fails at overflow: see the counterexample. -/
theorem claim_C2_precedence (a b c : Int) :
    parse [Token.int a, Token.operator "+", Token.int b, Token.operator "*",
           Token.int c, Token.inputEnd] =
      Except.ok (AstNode.add (AstNode.intLiteral a)
        (AstNode.multiply (AstNode.intLiteral b) (AstNode.intLiteral c))) ∧
    (-2147483648 ≤ b * c → b * c ≤ 2147483647 →
     -2147483648 ≤ a + b * c → a + b * c ≤ 2147483647 →
      evaluate (AstNode.add (AstNode.intLiteral a)
          (AstNode.multiply (AstNode.intLiteral b) (AstNode.intLiteral c))) =
        Except.ok (a + b * c)) ∧
    interpret "2 + 3 * 4" = some 14 := by
  refine ⟨rfl, ?_, rfl⟩
  intro h1 h2 h3 h4
  simp only [evaluate, evaluate_expression]
  rw [wrap32_eq_self h1 h2, wrap32_eq_self h3 h4]

/-- Instance of claim C2 at a = 2, b = 3, c = 4, discharging the
representability hypotheses of the evaluation equation. -/
theorem claim_C2_precedence_witness :
    evaluate (AstNode.add (AstNode.intLiteral 2)
        (AstNode.multiply (AstNode.intLiteral 3) (AstNode.intLiteral 4))) =
      Except.ok (2 + 3 * 4) :=
  (claim_C2_precedence 2 3 4).2.1 (by decide) (by decide) (by decide) (by decide)

/-- Counterexample to claim C2 as stated: at the scannable literal triple
a = b = c = 2147483647 the tree still parses as Add of a with the Multiply
of b and c, but its evaluation does not return the unrepresentable
mathematical value a + b times c (the program wraps in optimized builds and
aborts in debug builds), and the whole textual pipeline agrees. -/
theorem claim_C2_precedence_counterexample :
    parse [Token.int 2147483647, Token.operator "+", Token.int 2147483647,
           Token.operator "*", Token.int 2147483647, Token.inputEnd] =
      Except.ok (AstNode.add (AstNode.intLiteral 2147483647)
        (AstNode.multiply (AstNode.intLiteral 2147483647)
          (AstNode.intLiteral 2147483647))) ∧
    evaluate (AstNode.add (AstNode.intLiteral 2147483647)
        (AstNode.multiply (AstNode.intLiteral 2147483647)
          (AstNode.intLiteral 2147483647))) ≠
      Except.ok (2147483647 + 2147483647 * 2147483647) ∧
    interpret "2147483647 + 2147483647 * 2147483647" ≠
      some (2147483647 + 2147483647 * 2147483647) := by
  refine ⟨rfl, ?_, ?_⟩
  · intro h
    exact absurd (Except.ok.inj h) (by decide)
  · intro h
    exact absurd (Option.some.inj h) (by decide)

/-- Claim C3: a three element assignment chain parses with the later
assignment nested inside the right child: the token sequence of a = b = c
yields exactly Assign of a with the Assign of b and c, for any identifier
names. -/
theorem claim_C3_assignment_chain (a b c : String) :
    parse [Token.identifier a, Token.operator "=", Token.identifier b,
           Token.operator "=", Token.identifier c, Token.inputEnd] =
      Except.ok (AstNode.assign (AstNode.identifier a)
        (AstNode.assign (AstNode.identifier b) (AstNode.identifier c))) :=
  rfl

/-- Claim C4: the full pipeline over the ordered inputs x = 1, y = 2, x + y
against one shared environment returns 3, the result of the last input. -/
theorem claim_C4_interpret_sequence :
    interpret_expressions ["x = 1", "y = 2", "x + y"] = some 3 :=
  rfl

/-- Claim C8: evaluating an Identifier aborts with the UnknownIdentifier
fatal condition exactly when the name is absent from the environment, and
returns the bound value, leaving the environment unchanged, when present. -/
theorem claim_C8_unknown_identifier (env : Env) (name : String) :
    (envLookup env name = none →
      evaluate_expression (AstNode.identifier name) env =
        Except.error EvalErr.unknownIdentifier) ∧
    (∀ v, envLookup env name = some v →
      evaluate_expression (AstNode.identifier name) env = Except.ok (v, env)) := by
  constructor
  · intro h
    simp [evaluate_expression, h]
  · intro v h
    simp [evaluate_expression, h]

/-- Instance of claim C8 at the empty environment and at a singleton
environment, discharging both lookup hypotheses. -/
theorem claim_C8_unknown_identifier_witness :
    evaluate_expression (AstNode.identifier "x") [] =
      Except.error EvalErr.unknownIdentifier ∧
    evaluate_expression (AstNode.identifier "x") [("x", 5)] =
      Except.ok (5, [("x", 5)]) :=
  ⟨(claim_C8_unknown_identifier [] "x").1 rfl,
   (claim_C8_unknown_identifier [("x", 5)] "x").2 5 rfl⟩

/-- With enough fuel to cover the remaining input, the scanning loop
consumes exactly the maximal run of characters satisfying p from the cursor
on, returning that run and the cursor advanced past it. -/
theorem scan_while_eq_takeWhile (p : Char → Bool) :
    ∀ fuel input i, input.length - i ≤ fuel →
      scan_while fuel p input i =
        ((input.drop i).takeWhile p, i + ((input.drop i).takeWhile p).length) := by
  intro fuel
  induction fuel with
  | zero =>
    intro input i h
    have hd : input.drop i = [] := List.drop_eq_nil_of_le (by omega)
    simp [scan_while, hd]
  | succ fuel ih =>
    intro input i h
    cases hc : input[i]? with
    | none =>
      have hlen : input.length ≤ i := by
        by_contra hcon
        rw [List.getElem?_eq_none_iff] at hc
        omega
      have hd : input.drop i = [] := List.drop_eq_nil_of_le hlen
      simp [scan_while, hc, hd]
    | some c =>
      have hi : i < input.length := by
        by_contra hcon
        rw [List.getElem?_eq_some] at hc
        obtain ⟨hw, _⟩ := hc
        omega
      have hd : input.drop i = c :: input.drop (i + 1) := by
        rw [List.drop_eq_getElem_cons hi]
        rw [List.getElem?_eq_some] at hc
        obtain ⟨hw, hv⟩ := hc
        rw [hv]
      by_cases hp : p c
      · have := ih input (i + 1) (by omega)
        simp [scan_while, hc, hp, hd, this]
        omega
      · simp [scan_while, hc, hp, hd]

/-- Claim C6 as amended: at a cursor whose character is an ASCII letter,
the start class of the identifier match arm, next_token returns an
Identifier carrying exactly the maximal run of alphabetic characters
starting there, and advances the cursor past that run; characters outside
the alphabetic class, digits and underscores included, end the run.  The
input is restricted to codepoints below 0x100, the blocks on which the
embedded alphabetic table is the complete Unicode property.  A non-ASCII
alphabetic character does not start an identifier: see the
counterexample. -/
theorem claim_C6_identifier_maximal_run (input : List Char) (i : Nat) (c : Char)
    (_hdomain : ∀ d ∈ input, d.toNat < 0x100)
    (hc : input[i]? = some c) (hstart : isAsciiLetter c = true) :
    next_token input i =
      some (Token.identifier
          (String.mk ((input.drop i).takeWhile rustIsAlphabetic)),
        i + ((input.drop i).takeWhile rustIsAlphabetic).length) := by
  have hne : ∀ d : Char, isAsciiLetter d = false → c ≠ d := by
    intro d hd he
    rw [he, hd] at hstart
    exact Bool.false_ne_true hstart
  have hsw := scan_while_eq_takeWhile rustIsAlphabetic (input.length - i + 1)
    input i (by omega)
  simp [next_token, next_token_aux, hc, hstart, hsw,
    hne '(' (by decide), hne ')' (by decide), hne '+' (by decide),
    hne '-' (by decide), hne '*' (by decide), hne '/' (by decide),
    hne '=' (by decide)]

/-- Instance of claim C6 on the input a, e acute, 1: the identifier run
from cursor 0 is the two letters, the ASCII start letter and the Latin-1
alphabetic continuation, stopped by the digit. -/
theorem claim_C6_identifier_maximal_run_witness :
    next_token ['a', 'é', '1'] 0 = some (Token.identifier "aé", 2) := by
  have h := claim_C6_identifier_maximal_run ['a', 'é', '1'] 0 'a'
    (by decide) rfl (by decide)
  simpa using h

/-- Counterexample to claim C6 as stated: the character e acute is
alphabetic for the continuation test of the source, yet at a cursor
standing on it the scanner does not return an Identifier: no match arm of
next_token covers a non-ASCII start, so the scanner aborts on an invalid
character. -/
theorem claim_C6_identifier_maximal_run_counterexample :
    rustIsAlphabetic 'é' = true ∧ next_token ['é'] 0 = none := by
  exact ⟨by decide, by decide⟩

/-- Claim C5: parse never compares the final cursor with the end of the
token list: whenever the top level expression parse succeeds at some cursor
with further tokens beyond it, parse returns the tree of that prefix with
no error. -/
theorem claim_C5_trailing_tokens_ignored (tokens : List Token) (node : AstNode)
    (i : Nat)
    (h : parse_expression (parseFuel tokens) tokens 0 = Except.ok (node, i))
    (_htrail : i + 1 < tokens.length) :
    parse tokens = Except.ok node := by
  simp [parse, h]

/-- Instance of claim C5 on the token sequence of the text 1 2: the trailing
Int 2 after the complete expression 1 is silently ignored. -/
theorem claim_C5_trailing_tokens_ignored_witness :
    parse [Token.int 1, Token.int 2, Token.inputEnd] =
      Except.ok (AstNode.intLiteral 1) :=
  claim_C5_trailing_tokens_ignored [Token.int 1, Token.int 2, Token.inputEnd]
    (AstNode.intLiteral 1) 1 rfl (by decide)

/-- Claim C7: once the cursor is at or past the end of the input, next_token
returns the EndOfInput token and leaves the cursor unchanged, so every
subsequent call again starts at or past the end and again returns
EndOfInput. -/
theorem claim_C7_input_end_forever (input : List Char) (i : Nat)
    (h : input.length ≤ i) :
    next_token input i = some (Token.inputEnd, i) := by
  have hnone : input[i]? = none := by
    rw [List.getElem?_eq_none_iff]
    exact h
  simp [next_token, next_token_aux, hnone]

/-- Instance of claim C7 at an exhausted cursor of a concrete input. -/
theorem claim_C7_input_end_forever_witness :
    next_token ['1', '+', '2'] 7 = some (Token.inputEnd, 7) :=
  claim_C7_input_end_forever ['1', '+', '2'] 7 (by decide)

/-- Syntactic absence of Assign nodes in an expression tree. -/
def assignFree : AstNode → Bool
  | AstNode.add l r => assignFree l && assignFree r
  | AstNode.subtract l r => assignFree l && assignFree r
  | AstNode.multiply l r => assignFree l && assignFree r
  | AstNode.divide l r => assignFree l && assignFree r
  | AstNode.assign _ _ => false
  | AstNode.identifier _ => true
  | AstNode.intLiteral _ => true

/-- Claim C10: the environment is mutated only by Assign nodes: evaluating
any tree free of Assign nodes returns, when it succeeds, an environment
equal to the starting one. -/
theorem claim_C10_no_assign_frame (t : AstNode) (h : assignFree t = true) :
    ∀ env v env1, evaluate_expression t env = Except.ok (v, env1) → env1 = env := by
  induction t with
  | add l r ihl ihr =>
    rw [assignFree, Bool.and_eq_true] at h
    intro env v env1 he
    rw [evaluate_expression] at he
    cases h1 : evaluate_expression l env with
    | error e => rw [h1] at he; exact absurd he (by simp)
    | ok p =>
      obtain ⟨vl, envA⟩ := p
      rw [h1] at he
      dsimp only at he
      cases h2 : evaluate_expression r envA with
      | error e => rw [h2] at he; exact absurd he (by simp)
      | ok q =>
        obtain ⟨vr, envB⟩ := q
        rw [h2] at he
        dsimp only at he
        simp only [Except.ok.injEq, Prod.mk.injEq] at he
        rw [← he.2]
        exact (ihr h.2 envA vr envB h2).trans (ihl h.1 env vl envA h1)
  | subtract l r ihl ihr =>
    rw [assignFree, Bool.and_eq_true] at h
    intro env v env1 he
    rw [evaluate_expression] at he
    cases h1 : evaluate_expression l env with
    | error e => rw [h1] at he; exact absurd he (by simp)
    | ok p =>
      obtain ⟨vl, envA⟩ := p
      rw [h1] at he
      dsimp only at he
      cases h2 : evaluate_expression r envA with
      | error e => rw [h2] at he; exact absurd he (by simp)
      | ok q =>
        obtain ⟨vr, envB⟩ := q
        rw [h2] at he
        dsimp only at he
        simp only [Except.ok.injEq, Prod.mk.injEq] at he
        rw [← he.2]
        exact (ihr h.2 envA vr envB h2).trans (ihl h.1 env vl envA h1)
  | multiply l r ihl ihr =>
    rw [assignFree, Bool.and_eq_true] at h
    intro env v env1 he
    rw [evaluate_expression] at he
    cases h1 : evaluate_expression l env with
    | error e => rw [h1] at he; exact absurd he (by simp)
    | ok p =>
      obtain ⟨vl, envA⟩ := p
      rw [h1] at he
      dsimp only at he
      cases h2 : evaluate_expression r envA with
      | error e => rw [h2] at he; exact absurd he (by simp)
      | ok q =>
        obtain ⟨vr, envB⟩ := q
        rw [h2] at he
        dsimp only at he
        simp only [Except.ok.injEq, Prod.mk.injEq] at he
        rw [← he.2]
        exact (ihr h.2 envA vr envB h2).trans (ihl h.1 env vl envA h1)
  | divide l r ihl ihr =>
    rw [assignFree, Bool.and_eq_true] at h
    intro env v env1 he
    rw [evaluate_expression] at he
    cases h1 : evaluate_expression l env with
    | error e => rw [h1] at he; exact absurd he (by simp)
    | ok p =>
      obtain ⟨vl, envA⟩ := p
      rw [h1] at he
      dsimp only at he
      cases h2 : evaluate_expression r envA with
      | error e => rw [h2] at he; exact absurd he (by simp)
      | ok q =>
        obtain ⟨vr, envB⟩ := q
        rw [h2] at he
        dsimp only at he
        by_cases hz : vr = 0
        · rw [if_pos hz] at he
          exact absurd he (by simp)
        · rw [if_neg hz] at he
          by_cases hov : vl = -2147483648 ∧ vr = -1
          · rw [if_pos hov] at he
            exact absurd he (by simp)
          · rw [if_neg hov] at he
            simp only [Except.ok.injEq, Prod.mk.injEq] at he
            rw [← he.2]
            exact (ihr h.2 envA vr envB h2).trans (ihl h.1 env vl envA h1)
  | assign l r ihl ihr =>
    rw [assignFree] at h
    exact absurd h (by simp)
  | identifier id =>
    intro env v env1 he
    rw [evaluate_expression] at he
    cases hl : envLookup env id with
    | none => rw [hl] at he; dsimp only at he; exact absurd he (by simp)
    | some w =>
      rw [hl] at he
      dsimp only at he
      simp only [Except.ok.injEq, Prod.mk.injEq] at he
      exact he.2.symm
  | intLiteral w =>
    intro env v env1 he
    rw [evaluate_expression] at he
    simp only [Except.ok.injEq, Prod.mk.injEq] at he
    exact he.2.symm

/-- Instance of claim C10 on the tree of 1 + 2 over a singleton environment,
discharging the assignFree and evaluation hypotheses. -/
theorem claim_C10_no_assign_frame_witness :
    ([("a", 3)] : Env) = ([("a", 3)] : Env) :=
  claim_C10_no_assign_frame
    (AstNode.add (AstNode.intLiteral 1) (AstNode.intLiteral 2)) rfl
    [("a", 3)] 3 [("a", 3)] rfl

/-- A parse outcome respects the bounds of the token list: it is not the
out of bounds abort, and a successful outcome leaves the cursor strictly
inside the list. -/
def cursorOk (tokens : List Token) (r : Except ParseErr (AstNode × Nat)) : Prop :=
  r ≠ Except.error ParseErr.outOfBounds ∧
  ∀ node j, r = Except.ok (node, j) → j < tokens.length

theorem cursorOk_error (tokens : List Token) {e : ParseErr}
    (he : e ≠ ParseErr.outOfBounds) : cursorOk tokens (Except.error e) := by
  constructor
  · intro hcon
    injection hcon with h1
    exact he h1
  · intro node j hcon
    exact Except.noConfusion hcon

theorem cursorOk_ok (tokens : List Token) {node : AstNode} {j : Nat}
    (hj : j < tokens.length) : cursorOk tokens (Except.ok (node, j)) := by
  constructor
  · intro hcon
    exact Except.noConfusion hcon
  · intro n k hcon
    injection hcon with h1
    rw [← (Prod.mk.injEq .. ▸ h1 : node = n ∧ j = k).2]
    exact hj

/-- Indexing inside the list succeeds. -/
theorem tokAt_ok (tokens : List Token) (i : Nat) (hi : i < tokens.length) :
    tokAt tokens i = Except.ok tokens[i] := by
  simp [tokAt, List.getElem?_eq_getElem hi]

/-- When the last token is EndOfInput, consuming any token other than
EndOfInput leaves the cursor strictly inside the list. -/
theorem consume_lt (tokens : List Token)
    (hlast : tokens[tokens.length - 1]? = some Token.inputEnd)
    {i : Nat} (hi : i < tokens.length) (hne : tokens[i] ≠ Token.inputEnd) :
    i + 1 < tokens.length := by
  by_contra hcon
  have hieq : i = tokens.length - 1 := by omega
  subst hieq
  rw [List.getElem?_eq_getElem hi] at hlast
  exact hne (Option.some.inj hlast)

/-- The bounds invariant of the whole recursive descent: on a token list
whose last token is EndOfInput, every grammar rule called at a cursor inside
the list never aborts with an out of bounds index, and on success returns a
cursor still inside the list. -/
theorem parser_bounds (tokens : List Token)
    (hlast : tokens[tokens.length - 1]? = some Token.inputEnd) :
    ∀ fuel,
      (∀ i, i < tokens.length →
        cursorOk tokens (parse_expression fuel tokens i)) ∧
      (∀ i node, i < tokens.length →
        cursorOk tokens (parse_expression_loop fuel tokens i node)) ∧
      (∀ i, i < tokens.length →
        cursorOk tokens (parse_additive fuel tokens i)) ∧
      (∀ i node, i < tokens.length →
        cursorOk tokens (parse_additive_loop fuel tokens i node)) ∧
      (∀ i, i < tokens.length →
        cursorOk tokens (parse_term fuel tokens i)) ∧
      (∀ i node, i < tokens.length →
        cursorOk tokens (parse_term_loop fuel tokens i node)) ∧
      (∀ i, i < tokens.length →
        cursorOk tokens (parse_factor fuel tokens i)) := by
  intro fuel
  induction fuel with
  | zero =>
    refine ⟨fun i hi => ?_, fun i node hi => ?_, fun i hi => ?_,
      fun i node hi => ?_, fun i hi => ?_, fun i node hi => ?_, fun i hi => ?_⟩ <;>
      exact cursorOk_error tokens (by decide)
  | succ fuel ih =>
    obtain ⟨ihE, ihEL, ihA, ihAL, ihT, ihTL, ihF⟩ := ih
    refine ⟨?_, ?_, ?_, ?_, ?_, ?_, ?_⟩
    · -- parse_expression
      intro i hi
      simp only [parse_expression]
      cases hA : parse_additive fuel tokens i with
      | error e =>
        exact cursorOk_error tokens (fun heq => (ihA i hi).1 (heq ▸ hA))
      | ok p =>
        obtain ⟨node, j⟩ := p
        exact ihEL j node ((ihA i hi).2 node j hA)
    · -- parse_expression_loop
      intro i node hi
      simp only [parse_expression_loop]
      rw [tokAt_ok tokens i hi]
      dsimp only
      by_cases ht : tokens[i] = Token.operator "="
      · rw [if_pos ht]
        have hne : tokens[i] ≠ Token.inputEnd := by
          rw [ht]; exact fun he => Token.noConfusion he
        have hi1 := consume_lt tokens hlast hi hne
        cases hE : parse_expression fuel tokens (i + 1) with
        | error e =>
          exact cursorOk_error tokens (fun heq => (ihE (i + 1) hi1).1 (heq ▸ hE))
        | ok p =>
          obtain ⟨rhs, j⟩ := p
          exact ihEL j (AstNode.assign node rhs) ((ihE (i + 1) hi1).2 rhs j hE)
      · rw [if_neg ht]
        exact cursorOk_ok tokens hi
    · -- parse_additive
      intro i hi
      simp only [parse_additive]
      cases hT : parse_term fuel tokens i with
      | error e =>
        exact cursorOk_error tokens (fun heq => (ihT i hi).1 (heq ▸ hT))
      | ok p =>
        obtain ⟨node, j⟩ := p
        exact ihAL j node ((ihT i hi).2 node j hT)
    · -- parse_additive_loop
      intro i node hi
      simp only [parse_additive_loop]
      rw [tokAt_ok tokens i hi]
      dsimp only
      by_cases hp : tokens[i] = Token.operator "+"
      · rw [if_pos hp]
        have hne : tokens[i] ≠ Token.inputEnd := by
          rw [hp]; exact fun he => Token.noConfusion he
        have hi1 := consume_lt tokens hlast hi hne
        cases hT : parse_term fuel tokens (i + 1) with
        | error e =>
          exact cursorOk_error tokens (fun heq => (ihT (i + 1) hi1).1 (heq ▸ hT))
        | ok p =>
          obtain ⟨rhs, j⟩ := p
          exact ihAL j (AstNode.add node rhs) ((ihT (i + 1) hi1).2 rhs j hT)
      · rw [if_neg hp]
        by_cases hm : tokens[i] = Token.operator "-"
        · rw [if_pos hm]
          have hne : tokens[i] ≠ Token.inputEnd := by
            rw [hm]; exact fun he => Token.noConfusion he
          have hi1 := consume_lt tokens hlast hi hne
          cases hT : parse_term fuel tokens (i + 1) with
          | error e =>
            exact cursorOk_error tokens (fun heq => (ihT (i + 1) hi1).1 (heq ▸ hT))
          | ok p =>
            obtain ⟨rhs, j⟩ := p
            exact ihAL j (AstNode.subtract node rhs) ((ihT (i + 1) hi1).2 rhs j hT)
        · rw [if_neg hm]
          exact cursorOk_ok tokens hi
    · -- parse_term
      intro i hi
      simp only [parse_term]
      cases hF : parse_factor fuel tokens i with
      | error e =>
        exact cursorOk_error tokens (fun heq => (ihF i hi).1 (heq ▸ hF))
      | ok p =>
        obtain ⟨node, j⟩ := p
        exact ihTL j node ((ihF i hi).2 node j hF)
    · -- parse_term_loop
      intro i node hi
      simp only [parse_term_loop]
      rw [tokAt_ok tokens i hi]
      dsimp only
      by_cases hp : tokens[i] = Token.operator "*"
      · rw [if_pos hp]
        have hne : tokens[i] ≠ Token.inputEnd := by
          rw [hp]; exact fun he => Token.noConfusion he
        have hi1 := consume_lt tokens hlast hi hne
        cases hF : parse_factor fuel tokens (i + 1) with
        | error e =>
          exact cursorOk_error tokens (fun heq => (ihF (i + 1) hi1).1 (heq ▸ hF))
        | ok p =>
          obtain ⟨rhs, j⟩ := p
          exact ihTL j (AstNode.multiply node rhs) ((ihF (i + 1) hi1).2 rhs j hF)
      · rw [if_neg hp]
        by_cases hm : tokens[i] = Token.operator "/"
        · rw [if_pos hm]
          have hne : tokens[i] ≠ Token.inputEnd := by
            rw [hm]; exact fun he => Token.noConfusion he
          have hi1 := consume_lt tokens hlast hi hne
          cases hF : parse_factor fuel tokens (i + 1) with
          | error e =>
            exact cursorOk_error tokens (fun heq => (ihF (i + 1) hi1).1 (heq ▸ hF))
          | ok p =>
            obtain ⟨rhs, j⟩ := p
            exact ihTL j (AstNode.divide node rhs) ((ihF (i + 1) hi1).2 rhs j hF)
        · rw [if_neg hm]
          exact cursorOk_ok tokens hi
    · -- parse_factor
      intro i hi
      simp only [parse_factor]
      rw [tokAt_ok tokens i hi]
      cases htok : tokens[i] with
      | int v =>
        have hne : tokens[i] ≠ Token.inputEnd := by
          rw [htok]; exact fun he => Token.noConfusion he
        exact cursorOk_ok tokens (consume_lt tokens hlast hi hne)
      | openParen =>
        have hne : tokens[i] ≠ Token.inputEnd := by
          rw [htok]; exact fun he => Token.noConfusion he
        have hi1 := consume_lt tokens hlast hi hne
        cases hE : parse_expression fuel tokens (i + 1) with
        | error e =>
          exact cursorOk_error tokens (fun heq => (ihE (i + 1) hi1).1 (heq ▸ hE))
        | ok p =>
          obtain ⟨nd, j⟩ := p
          have hj := (ihE (i + 1) hi1).2 nd j hE
          dsimp only
          rw [tokAt_ok tokens j hj]
          dsimp only
          by_cases hcp : tokens[j] = Token.closedParen
          · rw [if_pos hcp]
            have hnej : tokens[j] ≠ Token.inputEnd := by
              rw [hcp]; exact fun he => Token.noConfusion he
            exact cursorOk_ok tokens (consume_lt tokens hlast hj hnej)
          · rw [if_neg hcp]
            exact cursorOk_error tokens (by decide)
      | closedParen => exact cursorOk_error tokens (by decide)
      | operator op => exact cursorOk_error tokens (by decide)
      | identifier name =>
        have hne : tokens[i] ≠ Token.inputEnd := by
          rw [htok]; exact fun he => Token.noConfusion he
        exact cursorOk_ok tokens (consume_lt tokens hlast hi hne)
      | inputEnd => exact cursorOk_error tokens (by decide)

/-- Every token list produced by the collection loop ends in the terminal
EndOfInput token. -/
theorem tokenize_all_aux_ends_input_end :
    ∀ fuel input i ts, tokenize_all_aux fuel input i = some ts →
      ts[ts.length - 1]? = some Token.inputEnd := by
  intro fuel
  induction fuel with
  | zero =>
    intro input i ts h
    exact absurd h (by simp [tokenize_all_aux])
  | succ fuel ih =>
    intro input i ts h
    rw [tokenize_all_aux] at h
    cases hn : next_token input i with
    | none =>
      rw [hn] at h
      exact Option.noConfusion h
    | some p =>
      obtain ⟨t, j⟩ := p
      rw [hn] at h
      dsimp only at h
      by_cases hend : t = Token.inputEnd
      · rw [if_pos hend] at h
        have hts : ts = [t] := (Option.some.inj h).symm
        subst hts
        simp [hend]
      · rw [if_neg hend] at h
        cases hr : tokenize_all_aux fuel input j with
        | none =>
          rw [hr] at h
          exact Option.noConfusion h
        | some ts1 =>
          rw [hr] at h
          dsimp only at h
          have hts : ts = t :: ts1 := (Option.some.inj h).symm
          subst hts
          have hlast := ih input j ts1 hr
          cases ts1 with
          | nil => simp at hlast
          | cons a l => simpa using hlast

/-- Claim C9: every token list produced by tokenize_all ends in the
terminal EndOfInput token, and running parse on it never indexes the token
list out of bounds: the out of bounds abort is unreachable, every cursor
access staying inside the list. -/
theorem claim_C9_parse_in_bounds (input : String) (ts : List Token)
    (h : tokenize_all input = some ts) :
    ts[ts.length - 1]? = some Token.inputEnd ∧
    parse ts ≠ Except.error ParseErr.outOfBounds := by
  have hlast : ts[ts.length - 1]? = some Token.inputEnd :=
    tokenize_all_aux_ends_input_end (input.toList.length + 1) input.toList 0 ts h
  refine ⟨hlast, ?_⟩
  have hpos : 0 < ts.length := by
    by_contra h0
    have hnone : ts[ts.length - 1]? = none := by
      rw [List.getElem?_eq_none_iff]
      omega
    rw [hnone] at hlast
    exact Option.noConfusion hlast
  have hb := (parser_bounds ts hlast (parseFuel ts)).1 0 hpos
  intro hcon
  simp only [parse] at hcon
  cases hE : parse_expression (parseFuel ts) ts 0 with
  | error e =>
    rw [hE] at hcon
    dsimp only at hcon
    injection hcon with h1
    exact hb.1 (h1 ▸ hE)
  | ok p =>
    rw [hE] at hcon
    dsimp only at hcon
    exact Except.noConfusion hcon

/-- Instance of claim C9 on the token list of the text 1 + 2. -/
theorem claim_C9_parse_in_bounds_witness :
    ([Token.int 1, Token.operator "+", Token.int 2, Token.inputEnd] :
        List Token)[3]? = some Token.inputEnd ∧
    parse [Token.int 1, Token.operator "+", Token.int 2, Token.inputEnd] ≠
      Except.error ParseErr.outOfBounds := by
  have h := claim_C9_parse_in_bounds "1 + 2"
    [Token.int 1, Token.operator "+", Token.int 2, Token.inputEnd] rfl
  simpa using h

end SimpleCalc
